import Mathlib

/-!
Shallow embedding of the message filtering, context-extension, transcript
assembly and summary-response parsing pipeline of `src/main.py`
(Telegram Message Analyzer), together with theorems checking the
natural-language specification against the code.

Python strings are modelled as `List Char` (with `String` wrappers at the
interfaces); Python's `-1` find sentinel is modelled with `Int`; Python
dictionaries (insertion ordered, last assignment wins) are modelled as
association lists with an in-place update operation.
-/

/-! ### Python string primitives -/

/-- Python `str.lower()` restricted to ASCII case mapping. -/
def pyLower (l : List Char) : List Char := l.map Char.toLower

/-- Python `str.strip('@')`: removes all leading and trailing `'@'` characters. -/
def pyStripAts (l : List Char) : List Char :=
  ((l.dropWhile (fun c => c = '@')).reverse.dropWhile (fun c => c = '@')).reverse

/-- Python `str.strip()`: removes leading and trailing whitespace. -/
def pyStrip (l : List Char) : List Char :=
  ((l.dropWhile Char.isWhitespace).reverse.dropWhile Char.isWhitespace).reverse

/-- First index (from the front) at which the needle `n` occurs as a
contiguous subsequence of `l`; `none` when it does not occur.
This is Python `str.find` without a start offset, with `none` for `-1`. -/
def subFind (l n : List Char) : Option Nat :=
  if n.isPrefixOf l then some 0
  else
    match l with
    | [] => none
    | _ :: t => (subFind t n).map (· + 1)

/-- Python `str.find(sub, start)` with `none` standing for `-1`. -/
def findFrom (l n : List Char) (s : Nat) : Option Nat :=
  (subFind (l.drop s) n).map (· + s)

/-- Python `str.find(sub, start)` with the `-1` sentinel kept as an `Int`. -/
def pyFind (l n : List Char) (s : Nat) : Int :=
  match findFrom l n s with
  | some i => (i : Int)
  | none => -1

/-- Python `sub in s`. -/
def pyContains (l n : List Char) : Bool := (subFind l n).isSome

/-- Python `s.split(sep, 1)`: the part before the first occurrence of the
separator and, when the separator occurs, the part after it. -/
def pySplitOnce (l sep : List Char) : List Char × Option (List Char) :=
  match subFind l sep with
  | some i => (l.take i, some (l.drop (i + sep.length)))
  | none => (l, none)

/-- Python `s.split('\n')` (keeps empty pieces; the empty string yields one
empty piece). -/
def splitOnNl : List Char → List (List Char)
  | [] => [[]]
  | c :: t =>
    if c = '\n' then [] :: splitOnNl t
    else
      match splitOnNl t with
      | h :: r => (c :: h) :: r
      | [] => [[c]]

/-- The first whitespace-delimited token of `l`: Python `s.split()[0]`
(meaningful when `s.strip()` is non-empty). -/
def firstToken (l : List Char) : List Char :=
  (l.dropWhile Char.isWhitespace).takeWhile (fun c => ¬ c.isWhitespace)

/-- Index of the first occurrence of the character `c`, if any. -/
def firstIdx (c : Char) : List Char → Option Nat
  | [] => none
  | x :: t => if x = c then some 0 else (firstIdx c t).map (· + 1)

/-! ### The message data model (normalized record of the repository) -/

/-- A normalized message record.  Fields that `main.py` reads with plain
indexing (`msg["id"]`, `msg["datetime"]`, `msg["timestamp"]`,
`msg["sender_name"]` in the transcript, `msg["text"]`) are total here except
`sender_name`, which the filter reads with `msg.get("sender_name", "")` and is
kept optional with that default; fields read with `msg.get(...)` are optional. -/
structure Message where
  id : Int
  datetime : Int
  timestamp : String
  text : String
  sender_name : Option String
  sender_id : Option Int
  is_reply : Bool
  reply_to_msg_id : Option Int
  is_forwarded : Bool
  forwarded_from : Option String
deriving DecidableEq

/-- A target-user token on the command line: a username string or a numeric id. -/
def Target : Type := String ⊕ Int

instance : DecidableEq Target := by
  unfold Target
  infer_instance

/-- Embeds `u.lower().strip('@') if isinstance(u, str) else str(u)` (main.py line 159). -/
def normalizeTarget : Target → String
  | Sum.inl s => String.mk (pyStripAts (pyLower s.data))
  | Sum.inr n => toString n

/-- Embeds `msg.get("sender_name", "").lower().strip('@')` (main.py line 164). -/
def senderNameNorm (m : Message) : String :=
  String.mk (pyStripAts (pyLower (m.sender_name.getD "").data))

/-- Embeds `str(msg.get("sender_id", ""))` (main.py line 165). -/
def senderIdStr (m : Message) : String :=
  match m.sender_id with
  | some n => toString n
  | none => ""

/-- The normalized target token list `target_users_lower`. -/
def targetStrings (ts : List Target) : List String := ts.map normalizeTarget

/-- The selection test of the filtering loop (main.py line 167). -/
def matchesTargets (ts : List Target) (m : Message) : Bool :=
  decide (senderNameNorm m ∈ targetStrings ts) || decide (senderIdStr m ∈ targetStrings ts)

/-- Embeds `filtered_messages` (main.py lines 162-168). -/
def filteredOf (msgs : List Message) (ts : List Target) : List Message :=
  msgs.filter (matchesTargets ts)

/-- Embeds `context_message_ids` (main.py lines 172-176): the `reply_to_msg_id`
values of filtered messages with truthy `is_reply` and truthy (non-`None`,
non-zero) `reply_to_msg_id`. -/
def contextIdsOf (msgs : List Message) (ts : List Target) : List Int :=
  (filteredOf msgs ts).filterMap (fun m =>
    if m.is_reply then
      match m.reply_to_msg_id with
      | some r => if r = 0 then none else some r
      | none => none
    else none)

/-- Embeds `filtered_ids` (main.py line 179). -/
def filteredIdsOf (msgs : List Message) (ts : List Target) : List Int :=
  (filteredOf msgs ts).map Message.id

/-- Embeds `context_messages` (main.py lines 180-183). -/
def contextOf (msgs : List Message) (ts : List Target) : List Message :=
  msgs.filter (fun m =>
    decide (m.id ∈ contextIdsOf msgs ts) && decide (m.id ∉ filteredIdsOf msgs ts))

/-- Embeds `filter_and_extend_messages` (main.py lines 141-186).  `target_users` is
optional; Python's `if not target_users` is true for `None` and for `[]`. -/
def filter_and_extend_messages (messages : List Message)
    (target_users : Option (List Target)) : List Message × List Message :=
  if (target_users.getD []).isEmpty then (messages, messages)
  else
    (filteredOf messages (target_users.getD []),
     filteredOf messages (target_users.getD []) ++ contextOf messages (target_users.getD []))

/-- Embeds `get_date_range` (main.py lines 206-223): `None`s on the empty list,
otherwise earliest = last element's timestamp, latest = first element's. -/
def get_date_range (messages : List Message) : Option String × Option String :=
  if messages.isEmpty then (none, none)
  else ((messages.getLast?).map Message.timestamp, (messages.head?).map Message.timestamp)

/-- The date range the result record carries: computed from the *filtered*
sequence (main.py line 128). -/
def resultDateRange (messages : List Message) (target_users : Option (List Target)) :
    Option String × Option String :=
  get_date_range (filter_and_extend_messages messages target_users).1

/-! ### Transcript assembly (main.py lines 241-252) -/

/-- The comparison key of `sorted(extended_messages, key=lambda m: m["datetime"])`,
as a boolean relation for the stable merge sort. -/
def datetimeLe (a b : Message) : Bool := decide (a.datetime ≤ b.datetime)

/-- The stable ascending-by-`datetime` sort performed by Python `sorted`. -/
def sortedByDatetime (msgs : List Message) : List Message :=
  msgs.mergeSort datetimeLe

/-- Renders one message exactly as the loop body of main.py lines 244-250. -/
def renderMessage (m : Message) : String :=
  if m.is_forwarded then
    "[" ++ m.timestamp ++ "] " ++ (m.sender_name.getD "") ++
      " shared content originally by " ++ (m.forwarded_from.getD "Unknown Source") ++
      ": " ++ m.text
  else
    "[" ++ m.timestamp ++ "] " ++ (m.sender_name.getD "") ++ ": " ++ m.text

/-- The list `all_formatted_messages`: one rendered line per message, in
sorted order. -/
def assembleLines (msgs : List Message) : List String :=
  (sortedByDatetime msgs).map renderMessage

/-- Embeds `all_messages_text = "\n".join(all_formatted_messages)` (main.py line 252). -/
def allMessagesText (msgs : List Message) : String :=
  String.intercalate "\n" (assembleLines msgs)

/-! ### Heuristic trader-name extraction (main.py lines 257-285) -/

/-- Extraction of at most one embedded source ("trader") name from one
message text, embedding the body of the loop at main.py lines 259-282:
either the text between the marker characters `'💰'` and `'【'`, or the first
whitespace-delimited token after the prefix token `"from: 💰"`. -/
def extractTrader (text : List Char) : Option String :=
  if pyContains text "from: 💰".data || pyContains text "💰".data then
    if pyContains text "💰".data && pyContains text "【".data then
      let ts : Int := pyFind text "💰".data 0 + 1
      let te : Int := pyFind text "【".data 0
      if 0 < ts ∧ ts < te then
        let name := pyStrip ((text.drop ts.toNat).take (te - ts).toNat)
        if name.isEmpty then none else some (String.mk name)
      else none
    else if pyContains text "from: 💰".data then
      match pySplitOnce text "from: 💰".data with
      | (_, some rest) =>
        if (pyStrip rest).isEmpty then none
        else
          let name := pyStrip (firstToken rest)
          if name.isEmpty then none else some (String.mk name)
      | (_, none) => none
    else none
  else none

/-- Embeds `trader_names = sorted(list(trader_names))` where the set is filled
message by message (main.py lines 258-285): the lexicographically sorted list
of the distinct extracted names. -/
def traderNames (msgs : List Message) : List String :=
  ((msgs.filterMap (fun m => extractTrader m.text.data)).dedup).mergeSort
    (fun a b => decide (a ≤ b))

/-! ### Summary response parsing (main.py lines 310-353) -/

/-- Python dictionary assignment `d[k] = v` on an insertion-ordered
association list: updates the value in place when the key is present,
appends the pair otherwise. -/
def dictUpdate (d : List (String × String)) (k v : String) : List (String × String) :=
  if d.any (fun p => p.1 = k) then d.map (fun p => if p.1 = k then (k, v) else p)
  else d ++ [(k, v)]

/-- Embeds the overall-section scan (main.py lines 314-319): when both
markers occur and the closing fence occurs strictly after the start of
content, the trimmed substring between them. -/
def extractOverall (r : List Char) : Option (List Char) :=
  if pyContains r "```overall".data && pyContains r "```".data then
    let os : Int := pyFind r "```overall".data 0 + 10
    let oe : Int := pyFind r "```".data os.toNat
    if os < oe then some (pyStrip ((r.drop os.toNat).take (oe - os).toNat))
    else none
  else none

/-- Embeds the per-line parse of the participants block (main.py lines
329-346), updating the summaries dictionary. -/
def parseLine (d : List (String × String)) (line : List Char) : List (String × String) :=
  if pyContains line "]".data && pyContains line "[".data then
    let pstart : Int := pyFind line "[".data 0 + 1
    let pend : Int := pyFind line "]".data 0
    if pstart < pend then
      let participant := String.mk ((line.drop pstart.toNat).take (pend - pstart).toNat)
      let sstart : Int := pyFind line ":".data pend.toNat + 1
      if 0 < sstart then
        dictUpdate d participant (String.mk (pyStrip (line.drop sstart.toNat)))
      else d
    else d
  else if pyContains line ":".data then
    match pySplitOnce line ":".data with
    | (a, some b) => dictUpdate d (String.mk (pyStrip a)) (String.mk (pyStrip b))
    | (_, none) => d
  else d

/-- Embeds the participants-section scan (main.py lines 322-346), including
the code's `+ 14` offset after `find("```participants")` (the marker is 15
characters long, so the block text starts with the marker's final `s`). -/
def participantSummaries (r : List Char) : List (String × String) :=
  if pyContains r "```participants".data && pyContains r "```".data then
    let ps : Int := pyFind r "```participants".data 0 + 14
    let pe : Int := pyFind r "```".data ps.toNat
    if ps < pe then
      (splitOnNl (pyStrip ((r.drop ps.toNat).take (pe - ps).toNat))).foldl parseLine []
    else []
  else []

/-- Embeds the whole response parse of `generate_summaries` (main.py lines
310-351): overall section, participants section, and the fallback that makes
the entire raw response the overall summary when the delimiter scan found
no overall section. -/
def parse_response (resp : String) : String × List (String × String) :=
  let bp := participantSummaries resp.data
  match extractOverall resp.data with
  | some o => (String.mk o, bp)
  | none => (resp, bp)

/-! ### The summarization call site (main.py lines 110-116 and 300-308) -/

/-- Number of calls to `generate_summary_with_ai` made by one run of
`analyze_messages` that has fetched the (non-empty) list `messages`:
`generate_summaries` is invoked only when `extended_messages` is truthy
(main.py line 110) and then performs exactly one call (main.py lines
303-308, assuming the prompt template loaded). -/
def summarizerCalls (messages : List Message) (target_users : Option (List Target)) : Nat :=
  if ((filter_and_extend_messages messages target_users).2).isEmpty then 0 else 1

/-! ### Definitions written from the specification's words, for comparison
with the code -/

/-- Modelled from the spec: the participants-line rules exactly as the spec
states them, with rule (1) requiring a `'['` and a `']'` in left-to-right
order and rule (2) applying otherwise whenever the line contains a `':'`. -/
def specColonRule (d : List (String × String)) (line : List Char) : List (String × String) :=
  if ':' ∈ line then
    match firstIdx ':' line with
    | some t =>
      dictUpdate d (String.mk (pyStrip (line.take t))) (String.mk (pyStrip (line.drop (t + 1))))
    | none => d
  else d

/-- Modelled from the spec: one participants line parsed by the claim's
priority order — rule (1) only when the line contains a `'['` with a `']'`
strictly after it (left-to-right order), rule (2) on the first `':'`
otherwise, rule (3) ignore. -/
def specLineRuleClaim (d : List (String × String)) (line : List Char) : List (String × String) :=
  match firstIdx '[' line with
  | some i =>
    if ']' ∈ line.drop (i + 1) then
      match firstIdx ']' (line.drop (i + 1)) with
      | some j =>
        match firstIdx ':' (line.drop (i + 1 + j + 1)) with
        | some t =>
          dictUpdate d (String.mk ((line.drop (i + 1)).take j))
            (String.mk (pyStrip (line.drop (i + 1 + j + 1 + t + 1))))
        | none => d
      | none => d
    else specColonRule d line
  | none => specColonRule d line

/-- The amended per-line rule that the code actually implements: rule (1)
fires whenever the line contains both brackets in any order; it produces an
entry only when the first `'['` strictly precedes the first `']'` with at
least one character between them and a `':'` occurs at or after that `']'`,
and otherwise the line adds nothing (no fall-through to the colon rule);
rule (2) splits on the first `':'`; rule (3) ignores the line. -/
def lineRuleSpec (d : List (String × String)) (line : List Char) : List (String × String) :=
  if '[' ∈ line ∧ ']' ∈ line then
    match firstIdx '[' line, firstIdx ']' line with
    | some i, some j =>
      if i + 1 < j then
        match firstIdx ':' (line.drop j) with
        | some t =>
          dictUpdate d (String.mk ((line.drop (i + 1)).take (j - (i + 1))))
            (String.mk (pyStrip (line.drop (j + t + 1))))
        | none => d
      else d
    | _, _ => d
  else specColonRule d line

/-- Modelled from the spec: strips at most one leading `'@'`, as the claim's
words "stripping a leading `'@'`" prescribe (the code strips every leading
and trailing `'@'`). -/
def stripOneLeadingAt (l : List Char) : List Char :=
  match l with
  | '@' :: t => t
  | other => other

/-- Modelled from the spec: target-token normalization by the claim's words
(lowercase, then strip a single leading `'@'`). -/
def specClaimNormalizeTarget : Target → String
  | Sum.inl s => String.mk (stripOneLeadingAt (pyLower s.data))
  | Sum.inr n => toString n

/-- Modelled from the spec: the filtered set the claim's normalization rule
predicts (sender side normalized as in the code, target side by the claim). -/
def specClaimFiltered (msgs : List Message) (ts : List Target) : List Message :=
  msgs.filter (fun m =>
    decide (senderNameNorm m ∈ ts.map specClaimNormalizeTarget)
      || decide (senderIdStr m ∈ ts.map specClaimNormalizeTarget))

/-! ### Concrete messages used in witnesses and counterexamples -/

/-- A plain message by "alice". -/
def msgAlice : Message :=
  ⟨1, 5, "2024-01-01 10:00", "hi there", some "alice", some 7, false, none, false, none⟩

/-- A reply by "alice" to message 3. -/
def msgAliceReply : Message :=
  ⟨2, 6, "2024-01-01 10:05", "sure", some "alice", some 7, true, some 3, false, none⟩

/-- A message by "bob" that message 2 replies to. -/
def msgBob : Message :=
  ⟨3, 4, "2024-01-01 09:55", "question?", some "bob", some 8, false, none, false, none⟩

/-- A forwarded message. -/
def msgFwd : Message :=
  ⟨4, 2, "2024-01-01 09:00", "look at this", some "carol", some 9, false, none, true, some "dave"⟩

/-! ### Helper lemmas -/

theorem isEmpty_false_of_ne_nil {α : Type} {l : List α} (h : l ≠ []) : l.isEmpty = false := by
  cases l with
  | nil => exact absurd rfl h
  | cons a t => rfl

/-! ### C4 -/

/-- C4: for every message list, when the target-participant argument is
absent (`None`) or the empty list, `filter_and_extend_messages` returns the
pair `(messages, messages)`: both outputs equal the full input, unchanged
and in the original order (identity law). -/
theorem filter_extend_identity_law :
    ∀ msgs : List Message,
      filter_and_extend_messages msgs none = (msgs, msgs)
      ∧ filter_and_extend_messages msgs (some []) = (msgs, msgs) := by
  intro msgs
  exact ⟨rfl, rfl⟩

/-! ### C2 -/

/-- C2: for every string input the response parser is a total function
returning a pair `(overall, by_participant)`; on inputs with no markers,
the empty string, pure whitespace, and unbalanced markers the result is
`(raw, {})`, and in particular the input `"random text with no markers"`
yields that very string as `overall` and an empty participant map. -/
theorem parse_response_never_fails :
    (∀ s : String, ∃ o bp, parse_response s = (o, bp))
    ∧ parse_response "random text with no markers" = ("random text with no markers", [])
    ∧ parse_response "" = ("", [])
    ∧ parse_response "   " = ("   ", [])
    ∧ parse_response "```overall but no end" = ("```overall but no end", []) := by
  refine ⟨fun s => ⟨(parse_response s).1, (parse_response s).2, rfl⟩, ?_, ?_, ?_, ?_⟩
  · decide
  · decide
  · decide
  · decide

/-! ### C3 -/

/-- C3: when the overall-section delimiter scan succeeds (start marker and a
closing marker strictly after the start of the content), the overall summary
is the trimmed substring between them — in particular the well-formed block
yields `"SUMMARY"` — and when the scan finds no overall section the entire
raw response becomes the overall summary (fallback, not an error). -/
theorem parse_response_overall_section :
    (parse_response "```overall\nSUMMARY\n```").1 = "SUMMARY"
    ∧ (∀ (s : String) (o : List Char),
        extractOverall s.data = some o → (parse_response s).1 = String.mk o)
    ∧ (∀ s : String, extractOverall s.data = none → (parse_response s).1 = s) := by
  refine ⟨by decide, fun s o h => ?_, fun s h => ?_⟩
  · simp [parse_response, h]
  · simp [parse_response, h]

/-- Witness for C3: the two delimiter-scan hypotheses discharged on concrete
inputs. -/
theorem parse_response_overall_section_witness :
    (parse_response "no markers at all").1 = "no markers at all"
    ∧ (parse_response "```overall\nX\n```").1 = String.mk "X".data :=
  ⟨parse_response_overall_section.2.2 "no markers at all" (by decide),
   parse_response_overall_section.2.1 "```overall\nX\n```" "X".data (by decide)⟩

/-! ### C8 -/

/-- C8: `get_date_range` yields `(none, none)` on the empty sequence and
otherwise earliest = the timestamp of the last element and latest = the
timestamp of the first element; the result record computes it from the
filtered — not the extended — sequence. -/
theorem date_range_from_filtered :
    get_date_range [] = (none, none)
    ∧ (∀ (msgs : List Message) (h : msgs ≠ []),
        get_date_range msgs
          = (some ((msgs.getLast h).timestamp), some ((msgs.head h).timestamp)))
    ∧ ∀ (msgs : List Message) (tu : Option (List Target)),
        resultDateRange msgs tu = get_date_range (filter_and_extend_messages msgs tu).1 := by
  refine ⟨rfl, fun msgs h => ?_, fun _ _ => rfl⟩
  simp [get_date_range, isEmpty_false_of_ne_nil h, List.getLast?_eq_getLast _ h,
    List.head?_eq_head h]

/-- Witness for C8: the non-emptiness hypothesis discharged on a concrete
two-message list. -/
theorem date_range_from_filtered_witness :
    get_date_range [msgAlice, msgBob]
      = (some (([msgAlice, msgBob].getLast (by decide)).timestamp),
         some (([msgAlice, msgBob].head (by decide)).timestamp)) :=
  date_range_from_filtered.2.1 [msgAlice, msgBob] (by decide)

/-! ### C9 -/

/-- Counterexample to C9: a request that proceeds past message fetching (the
fetched list is non-empty) but whose target users match no message produces
an empty extended set, and `analyze_messages` then makes zero summarization
calls — the claim's "never zero calls" fails. -/
theorem single_unified_call_cex :
    summarizerCalls [msgAlice] (some [Sum.inl "bob"]) = 0
    ∧ ([msgAlice] : List Message) ≠ [] := by decide

/-- C9 amended: per analysis request the summarization call is invoked at
most once, and exactly once precisely when the extended message set is
non-empty (one unified call, never multiple per-participant calls). -/
theorem summarizer_call_count :
    ∀ (msgs : List Message) (tu : Option (List Target)),
      summarizerCalls msgs tu ≤ 1
      ∧ (summarizerCalls msgs tu = 1 ↔ (filter_and_extend_messages msgs tu).2 ≠ []) := by
  intro msgs tu
  unfold summarizerCalls
  cases h : ((filter_and_extend_messages msgs tu).2).isEmpty with
  | true =>
    have := List.isEmpty_iff.mp h
    simp [this]
  | false =>
    have hne : (filter_and_extend_messages msgs tu).2 ≠ [] := by
      intro hnil
      rw [hnil] at h
      simp at h
    simp [h, hne]

/-! ### C6 -/

/-- Counterexample to C6: the code's normalization is Python
`strip('@')`, which removes trailing `'@'` characters as well as leading
ones; for the target token `"@alice@"` the code selects the message whose
sender name is `"alice"`, while the claim's "strip a leading `'@'`"
normalization (which yields `"alice@"`) selects nothing. -/
theorem target_normalization_cex :
    (filter_and_extend_messages [msgAlice] (some [Sum.inl "@alice@"])).1 = [msgAlice]
    ∧ specClaimFiltered [msgAlice] [Sum.inl "@alice@"] = [] := by decide

/-- C6 amended: each string target token is normalized by lowercasing and
stripping all leading and trailing `'@'` characters (numeric identifiers are
rendered as strings), and a message is selected into `filtered` precisely
when its normalized sender name or its sender id rendered as a string is
exactly equal to some normalized target token — exact match after
normalization, never substring match. -/
theorem target_match_characterization :
    ∀ (msgs : List Message) (ts : List Target), ts ≠ [] →
      ∀ m : Message,
        m ∈ (filter_and_extend_messages msgs (some ts)).1
          ↔ m ∈ msgs ∧ ∃ t ∈ ts,
              normalizeTarget t = senderNameNorm m ∨ normalizeTarget t = senderIdStr m := by
  intro msgs ts hts m
  simp only [filter_and_extend_messages, Option.getD_some, isEmpty_false_of_ne_nil hts,
    Bool.false_eq_true, if_false]
  simp only [filteredOf, List.mem_filter, matchesTargets, targetStrings, List.mem_map,
    Bool.or_eq_true, decide_eq_true_eq]
  constructor
  · rintro ⟨hm, ⟨t, ht, he⟩ | ⟨t, ht, he⟩⟩
    · exact ⟨hm, t, ht, Or.inl he⟩
    · exact ⟨hm, t, ht, Or.inr he⟩
  · rintro ⟨hm, t, ht, he | he⟩
    · exact ⟨hm, Or.inl ⟨t, ht, he⟩⟩
    · exact ⟨hm, Or.inr ⟨t, ht, he⟩⟩

/-- Witness for C6: the non-empty-target hypothesis discharged on a concrete
input. -/
theorem target_match_characterization_witness :
    msgAlice ∈ (filter_and_extend_messages [msgAlice] (some [Sum.inl "alice"])).1
      ↔ msgAlice ∈ [msgAlice] ∧ ∃ t ∈ [Sum.inl "alice"],
          normalizeTarget t = senderNameNorm msgAlice
            ∨ normalizeTarget t = senderIdStr msgAlice :=
  target_match_characterization [msgAlice] [Sum.inl "alice"] (by decide) msgAlice

/-! ### C1 -/

/-- C1: for every input whose message ids are pairwise distinct and every
non-empty target list, the extended output equals the filtered list followed
by the context messages in that order, every message id occurs at most once
in the extended output, and the extended length is the filtered length plus
the number of context-only additions. -/
theorem filter_extend_dedup_invariant :
    ∀ (msgs : List Message) (ts : List Target),
      (msgs.map Message.id).Nodup → ts ≠ [] →
      (filter_and_extend_messages msgs (some ts)).2
        = (filter_and_extend_messages msgs (some ts)).1 ++ contextOf msgs ts
      ∧ (((filter_and_extend_messages msgs (some ts)).2).map Message.id).Nodup
      ∧ ((filter_and_extend_messages msgs (some ts)).2).length
        = ((filter_and_extend_messages msgs (some ts)).1).length
          + (contextOf msgs ts).length := by
  intro msgs ts hid hts
  simp only [filter_and_extend_messages, Option.getD_some, isEmpty_false_of_ne_nil hts,
    Bool.false_eq_true, if_false]
  refine ⟨by trivial, ?_, List.length_append _ _⟩
  rw [List.map_append, List.nodup_append]
  refine ⟨List.Nodup.sublist ((List.filter_sublist msgs).map Message.id) hid,
    List.Nodup.sublist ((List.filter_sublist msgs).map Message.id) hid, ?_⟩
  intro x hxf hxc
  rcases List.mem_map.mp hxc with ⟨m, hm, hmx⟩
  have hcond := (List.mem_filter.mp hm).2
  simp only [Bool.and_eq_true, decide_eq_true_eq] at hcond
  exact hcond.2 (by rw [hmx]; exact hxf)

/-- Witness for C1: distinct-id and non-empty-target hypotheses discharged
on a concrete three-message input with one reply needing context. -/
theorem filter_extend_dedup_invariant_witness :
    (filter_and_extend_messages [msgAlice, msgAliceReply, msgBob] (some [Sum.inl "alice"])).2
      = (filter_and_extend_messages [msgAlice, msgAliceReply, msgBob] (some [Sum.inl "alice"])).1
        ++ contextOf [msgAlice, msgAliceReply, msgBob] [Sum.inl "alice"]
    ∧ (((filter_and_extend_messages [msgAlice, msgAliceReply, msgBob]
          (some [Sum.inl "alice"])).2).map Message.id).Nodup
    ∧ ((filter_and_extend_messages [msgAlice, msgAliceReply, msgBob]
          (some [Sum.inl "alice"])).2).length
      = ((filter_and_extend_messages [msgAlice, msgAliceReply, msgBob]
          (some [Sum.inl "alice"])).1).length
        + (contextOf [msgAlice, msgAliceReply, msgBob] [Sum.inl "alice"]).length :=
  filter_extend_dedup_invariant [msgAlice, msgAliceReply, msgBob] [Sum.inl "alice"]
    (by decide) (by decide)

/-! ### C7 -/

/-- C7: the transcript assembler sorts by `datetime` ascending with a stable
sort (messages with equal keys keep their original relative order, expressed
here as preservation of every equal-key fibre), renders one line per message
in the `[timestamp] sender: text` form (with the forwarded variant), and the
number of rendered lines equals the number of input messages. -/
theorem assemble_transcript_properties :
    ∀ msgs : List Message,
      (assembleLines msgs).length = msgs.length
      ∧ List.Pairwise (fun a b : Message => a.datetime ≤ b.datetime) (sortedByDatetime msgs)
      ∧ (∀ k : Int, (sortedByDatetime msgs).filter (fun m => decide (m.datetime = k))
          = msgs.filter (fun m => decide (m.datetime = k)))
      ∧ (∀ m : Message, m.is_forwarded = true → renderMessage m =
          "[" ++ m.timestamp ++ "] " ++ (m.sender_name.getD "")
            ++ " shared content originally by " ++ (m.forwarded_from.getD "Unknown Source")
            ++ ": " ++ m.text)
      ∧ (∀ m : Message, m.is_forwarded = false → renderMessage m =
          "[" ++ m.timestamp ++ "] " ++ (m.sender_name.getD "") ++ ": " ++ m.text) := by
  intro msgs
  have htrans : ∀ a b c : Message, datetimeLe a b → datetimeLe b c → datetimeLe a c := by
    intro a b c hab hbc
    simp only [datetimeLe, decide_eq_true_eq] at hab hbc ⊢
    omega
  have htot : ∀ a b : Message, datetimeLe a b || datetimeLe b a := by
    intro a b
    simp only [datetimeLe, Bool.or_eq_true, decide_eq_true_eq]
    omega
  refine ⟨?_, ?_, ?_, ?_, ?_⟩
  · simp [assembleLines, sortedByDatetime]
  · exact (List.sorted_mergeSort htrans htot msgs).imp
      (fun h => by simpa [datetimeLe] using h)
  · intro k
    have hpw : (msgs.filter (fun m => decide (m.datetime = k))).Pairwise
        (fun a b => datetimeLe a b) := by
      apply List.pairwise_of_forall_mem_list
      intro a ha b hb
      have ha' := (List.mem_filter.mp ha).2
      have hb' := (List.mem_filter.mp hb).2
      simp only [decide_eq_true_eq] at ha' hb'
      simp [datetimeLe, ha', hb']
    have hsub : List.Sublist (msgs.filter (fun m => decide (m.datetime = k)))
        (sortedByDatetime msgs) :=
      List.sublist_mergeSort htrans htot hpw (List.filter_sublist msgs)
    have h2 := List.Sublist.filter (fun m => decide (m.datetime = k)) hsub
    rw [List.filter_filter] at h2
    simp only [Bool.and_self] at h2
    have hlen : ((sortedByDatetime msgs).filter (fun m => decide (m.datetime = k))).length
        = (msgs.filter (fun m => decide (m.datetime = k))).length :=
      ((List.mergeSort_perm msgs datetimeLe).filter _).length_eq
    exact (List.Sublist.eq_of_length h2 hlen.symm).symm
  · intro m h
    simp [renderMessage, h]
  · intro m h
    simp [renderMessage, h]

/-- Witness for C7: the two rendering-shape hypotheses discharged on
concrete forwarded and non-forwarded messages. -/
theorem assemble_transcript_properties_witness :
    (assembleLines [msgAlice, msgBob]).length = ([msgAlice, msgBob] : List Message).length
    ∧ renderMessage msgFwd =
        "[" ++ msgFwd.timestamp ++ "] " ++ (msgFwd.sender_name.getD "")
          ++ " shared content originally by " ++ (msgFwd.forwarded_from.getD "Unknown Source")
          ++ ": " ++ msgFwd.text
    ∧ renderMessage msgAlice =
        "[" ++ msgAlice.timestamp ++ "] " ++ (msgAlice.sender_name.getD "")
          ++ ": " ++ msgAlice.text :=
  ⟨(assemble_transcript_properties [msgAlice, msgBob]).1,
   (assemble_transcript_properties []).2.2.2.1 msgFwd (by decide),
   (assemble_transcript_properties []).2.2.2.2 msgAlice (by decide)⟩

/-! ### C10 -/

/-- C10: the heuristic embedded-source-name extraction collects at most one
name per message by the two marker conventions (`extractTrader` embeds the
per-message try-block), the batch result contains a name exactly when some
message yields it (one message never affects another's extraction), and the
returned list is deduplicated and sorted lexicographically. -/
theorem trader_extraction_properties :
    ∀ msgs : List Message,
      List.Pairwise (fun a b : String => a ≤ b) (traderNames msgs)
      ∧ (traderNames msgs).Nodup
      ∧ ∀ x : String, x ∈ traderNames msgs ↔ ∃ m ∈ msgs, extractTrader m.text.data = some x := by
  intro msgs
  have htrans : ∀ a b c : String,
      (fun a b : String => decide (a ≤ b)) a b → (fun a b : String => decide (a ≤ b)) b c →
      (fun a b : String => decide (a ≤ b)) a c := by
    intro a b c hab hbc
    simp only [decide_eq_true_eq] at hab hbc ⊢
    exact le_trans hab hbc
  have htot : ∀ a b : String,
      (fun a b : String => decide (a ≤ b)) a b || (fun a b : String => decide (a ≤ b)) b a := by
    intro a b
    simp only [Bool.or_eq_true, decide_eq_true_eq]
    exact le_total a b
  refine ⟨?_, ?_, ?_⟩
  · exact (List.sorted_mergeSort htrans htot _).imp (fun h => by simpa using h)
  · exact ((List.mergeSort_perm _ _).nodup_iff).mpr
      (List.nodup_dedup (msgs.filterMap (fun m => extractTrader m.text.data)))
  · intro x
    simp [traderNames, List.mem_dedup, List.mem_filterMap]

/-! ### Helper lemmas for the per-line parser refinement (C5) -/

theorem lbr_data : "[".data = ['['] := rfl

theorem rbr_data : "]".data = [']'] := rfl

theorem colon_data : ":".data = [':'] := rfl


theorem subFind_singleton (c : Char) : ∀ l : List Char, subFind l [c] = firstIdx c l := by
  intro l
  induction l with
  | nil => rfl
  | cons x t ih =>
    by_cases h : x = c
    · subst h
      simp [subFind, firstIdx, List.isPrefixOf]
    · have h1 : ¬ c = x := fun hh => h hh.symm
      have hb : (c == x) = false := beq_false_of_ne h1
      simp [subFind, firstIdx, List.isPrefixOf, hb, h, ih]

theorem firstIdx_isSome (c : Char) : ∀ l : List Char, (firstIdx c l).isSome = true ↔ c ∈ l := by
  intro l
  induction l with
  | nil => simp [firstIdx]
  | cons x t ih =>
    by_cases h : x = c
    · subst h
      simp [firstIdx]
    · have h1 : ¬ c = x := fun hh => h hh.symm
      simp [firstIdx, h, h1, ih, Option.isSome_map']

theorem pyContains_singleton (l : List Char) (c : Char) : pyContains l [c] = true ↔ c ∈ l := by
  rw [pyContains, subFind_singleton, firstIdx_isSome]

theorem findFrom_zero (l n : List Char) : findFrom l n 0 = subFind l n := by
  rw [findFrom, List.drop_zero]
  cases subFind l n <;> simp

/-! ### Dictionary lemmas (last-write-wins) -/

theorem lookup_map_update (k v : String) :
    ∀ d : List (String × String), d.any (fun p => p.1 = k) = true →
      ((d.map (fun p => if p.1 = k then (k, v) else p)).lookup k) = some v := by
  intro d
  induction d with
  | nil => intro h; simp at h
  | cons p t ih =>
    intro h
    obtain ⟨k1, v1⟩ := p
    by_cases hp : k1 = k
    · subst hp
      simp
    · have ht : t.any (fun p => p.1 = k) = true := by simpa [hp] using h
      have hb : (k == k1) = false := beq_false_of_ne (fun hh => hp hh.symm)
      simp only [List.map_cons, if_neg hp]
      rw [List.lookup_cons]
      simp [hb, ih ht]

theorem lookup_map_update_other (k v k' : String) (h : k' ≠ k) :
    ∀ d : List (String × String),
      ((d.map (fun p => if p.1 = k then (k, v) else p)).lookup k') = d.lookup k' := by
  intro d
  induction d with
  | nil => rfl
  | cons p t ih =>
    obtain ⟨k1, v1⟩ := p
    by_cases hp : k1 = k
    · subst hp
      have hb : (k' == k1) = false := beq_false_of_ne h
      simp only [List.map_cons, if_pos rfl]
      rw [List.lookup_cons, List.lookup_cons]
      simp [hb, ih]
    · simp only [List.map_cons, if_neg hp]
      rw [List.lookup_cons, List.lookup_cons]
      cases hbk : (k' == k1) <;> simp [ih]

theorem lookup_append_single_other (k v k' : String) (h : k' ≠ k)
    (d : List (String × String)) : ((d ++ [(k, v)]).lookup k') = d.lookup k' := by
  have hb : (k' == k) = false := beq_false_of_ne h
  rw [List.lookup_append, List.lookup_cons]
  simp [hb]

theorem lookup_dictUpdate_self (d : List (String × String)) (k v : String) :
    (dictUpdate d k v).lookup k = some v := by
  unfold dictUpdate
  by_cases h : d.any (fun p => p.1 = k) = true
  · simp only [h, if_true]
    exact lookup_map_update k v d h
  · have hf : d.any (fun p => p.1 = k) = false := Bool.eq_false_iff.mpr h
    simp only [hf, Bool.false_eq_true, if_false]
    have hnone : d.lookup k = none := by
      rw [List.lookup_eq_none_iff]
      intro p hp
      simp only [bne_iff_ne, ne_eq]
      intro hh
      exact h (List.any_eq_true.mpr ⟨p, hp, by simp [hh]⟩)
    rw [List.lookup_append, hnone]
    simp

theorem lookup_dictUpdate_other (d : List (String × String)) (k v k' : String) (h : k' ≠ k) :
    (dictUpdate d k v).lookup k' = d.lookup k' := by
  unfold dictUpdate
  by_cases ha : d.any (fun p => p.1 = k) = true
  · simp only [ha, if_true]
    exact lookup_map_update_other k v k' h d
  · have hf : d.any (fun p => p.1 = k) = false := Bool.eq_false_iff.mpr ha
    simp only [hf, Bool.false_eq_true, if_false]
    exact lookup_append_single_other k v k' h d

theorem lineRuleSpec_no_brackets (d : List (String × String)) (line : List Char)
    (h : ¬ ('[' ∈ line ∧ ']' ∈ line)) : lineRuleSpec d line = specColonRule d line := by
  simp [lineRuleSpec, h]

theorem parseLine_no_brackets (d : List (String × String)) (line : List Char)
    (h : ¬ (']' ∈ line ∧ '[' ∈ line)) : parseLine d line = specColonRule d line := by
  have hb : (pyContains line "]".data && pyContains line "[".data) = false := by
    rw [rbr_data, lbr_data]
    rcases not_and_or.mp h with h1 | h2
    · have hx : pyContains line [']'] = false :=
        Bool.eq_false_iff.mpr (fun hh => h1 ((pyContains_singleton _ _).mp hh))
      simp [hx]
    · have hx : pyContains line ['['] = false :=
        Bool.eq_false_iff.mpr (fun hh => h2 ((pyContains_singleton _ _).mp hh))
      simp [hx]
  by_cases hc : ':' ∈ line
  · obtain ⟨t, ht⟩ := Option.isSome_iff_exists.mp ((firstIdx_isSome ':' line).mpr hc)
    have hcc : pyContains line ":".data = true := by
      rw [colon_data]
      exact (pyContains_singleton _ _).mpr hc
    simp only [parseLine, hb, Bool.false_eq_true, if_false, hcc, if_true]
    simp [pySplitOnce, colon_data, subFind_singleton, ht, specColonRule, hc]
  · have hcc : pyContains line ":".data = false := by
      rw [colon_data]
      exact Bool.eq_false_iff.mpr (fun hh => hc ((pyContains_singleton _ _).mp hh))
    simp [parseLine, hb, hcc, specColonRule, hc]

theorem parseLine_eq_lineRuleSpec :
    ∀ (d : List (String × String)) (line : List Char), parseLine d line = lineRuleSpec d line := by
  intro d line
  by_cases hbr : '[' ∈ line ∧ ']' ∈ line
  · obtain ⟨h2, h1⟩ := hbr
    obtain ⟨i, hi⟩ := Option.isSome_iff_exists.mp ((firstIdx_isSome '[' line).mpr h2)
    obtain ⟨j, hj⟩ := Option.isSome_iff_exists.mp ((firstIdx_isSome ']' line).mpr h1)
    have hc1 : pyContains line "]".data = true := by
      rw [rbr_data]
      exact (pyContains_singleton _ _).mpr h1
    have hc2 : pyContains line "[".data = true := by
      rw [lbr_data]
      exact (pyContains_singleton _ _).mpr h2
    have e1 : pyFind line "[".data 0 = (i : Int) := by
      unfold pyFind
      rw [lbr_data, findFrom_zero, subFind_singleton, hi]
    have e2 : pyFind line "]".data 0 = (j : Int) := by
      unfold pyFind
      rw [rbr_data, findFrom_zero, subFind_singleton, hj]
    simp only [parseLine, lineRuleSpec, hc1, hc2, Bool.and_self, if_true, h1, h2, and_self,
      hi, hj, e1, e2]
    by_cases hij : i + 1 < j
    · have hij' : (i : Int) + 1 < (j : Int) := by omega
      rw [if_pos hij', if_pos hij]
      have t1 : ((i : Int) + 1).toNat = i + 1 := by omega
      have t2 : ((j : Int) - ((i : Int) + 1)).toNat = j - (i + 1) := by omega
      have t3 : ((j : Int)).toNat = j := by omega
      rw [t1, t2, t3]
      cases hT : firstIdx ':' (line.drop j) with
      | none =>
        have e3 : pyFind line ":".data j = -1 := by
          unfold pyFind
          rw [colon_data, findFrom, subFind_singleton, hT]
          rfl
        rw [e3]
        norm_num
      | some t =>
        have e3 : pyFind line ":".data j = ((t + j : Nat) : Int) := by
          unfold pyFind
          rw [colon_data, findFrom, subFind_singleton, hT]
          rfl
        rw [e3]
        have hpos : (0 : Int) < ((t + j : Nat) : Int) + 1 := by omega
        rw [if_pos hpos]
        have t4 : (((t + j : Nat) : Int) + 1).toNat = j + t + 1 := by omega
        rw [t4]
    · have hij' : ¬ ((i : Int) + 1 < (j : Int)) := by omega
      rw [if_neg hij', if_neg hij]
  · rw [parseLine_no_brackets d line (fun hh => hbr ⟨hh.2, hh.1⟩),
      lineRuleSpec_no_brackets d line hbr]

/-! ### C5 -/

/-- Counterexample to C5: the line `"]x[: hello"` contains a `']'` and a
`'['` but not in left-to-right order, and contains a `':'`; the claim's
priority order sends it to the colon rule, producing the entry
`("]x[", "hello")`, but the code enters the bracket branch on mere presence
of both characters and adds nothing — it never falls through to the colon
rule, so the whole parse yields an empty participant map. -/
theorem participants_line_rules_cex :
    parseLine [] ("]x[: hello".data) = []
    ∧ specLineRuleClaim [] ("]x[: hello".data) = [("]x[", "hello")]
    ∧ parse_response "```participants\n]x[: hello\n```"
        = ("```participants\n]x[: hello\n```", []) := by
  refine ⟨by decide, by decide, by decide⟩

/-- C5 amended: each participants line is parsed by: (1) if the line
contains both a `'['` and a `']'` in any order, the bracket rule applies —
it adds an entry (name = text strictly between the first `'['` and the first
`']'`, summary = trimmed text after the first `':'` at or after that `']'`)
only when the first `'['` strictly precedes the first `']'` with at least
one character between them and such a `':'` exists, and otherwise the line
is ignored without falling through; (2) else if the line contains a `':'`,
it is split on the first `':'` into trimmed name and trimmed summary;
(3) else the line is ignored; and dictionary assignment makes later lines
for the same participant overwrite earlier ones (last-write-wins, other
keys untouched, no aggregation). -/
theorem participants_line_rules :
    (∀ (d : List (String × String)) (line : List Char),
      parseLine d line = lineRuleSpec d line)
    ∧ (∀ (d : List (String × String)) (k v : String),
      (dictUpdate d k v).lookup k = some v)
    ∧ (∀ (d : List (String × String)) (k v k' : String), k' ≠ k →
      (dictUpdate d k v).lookup k' = d.lookup k') :=
  ⟨parseLine_eq_lineRuleSpec, lookup_dictUpdate_self, lookup_dictUpdate_other⟩

/-- Witness for C5: the distinct-key hypothesis of the last-write-wins
clause discharged on a concrete dictionary, and the line-rule refinement
instantiated on a concrete line. -/
theorem participants_line_rules_witness :
    (dictUpdate [("Alice", "a")] "Alice" "b").lookup "Bob"
      = ([("Alice", "a")] : List (String × String)).lookup "Bob"
    ∧ parseLine [] "[Alice]: x".data = lineRuleSpec [] "[Alice]: x".data :=
  ⟨participants_line_rules.2.2 [("Alice", "a")] "Alice" "b" "Bob" (by decide),
   participants_line_rules.1 [] "[Alice]: x".data⟩
